import Mathlib

/-!
# Verification of the minimal_vst_pan stereo panner

Shallow embedding of `src/lib.rs` (DanceMore/minimal_vst_pan), a nih_plug
stereo pan effect. Machine floats (`f32`) are modelled as exact rationals
`ℚ`; the audio buffer is a list of frames, each frame a list of per-channel
samples; the `FloatParam.smoothed` value is threaded explicitly as a
`Smoother` state.
-/

set_option autoImplicit false

namespace MinimalVstPan

/-! ## Gain law (src/lib.rs lines 134-135)

`let left_gain = (1.0 - pan) / 2.0;` and
`let right_gain = (1.0 + pan) / 2.0;` inside `process`. -/

def left_gain (pan : ℚ) : ℚ := (1 - pan) / 2

def right_gain (pan : ℚ) : ℚ := (1 + pan) / 2

/-! ## Smoother

Modelled from the spec: the `Smoother` behind `self.params.pan.smoothed`
is part of the nih_plug framework and its implementation is not under
`src/`; only its call site (`smoothed.next()`, line 131) is. Per the
spec (§4.2), it is a linear ramp from the effective value at the last
`setTarget` toward the target over a fixed number of samples; `next()`
advances by one sample and returns the new effective value; when the
duration is zero or the ramp has finished, `next()` keeps returning the
target unchanged. -/

structure Smoother where
  current : ℚ
  target : ℚ
  stepsLeft : ℕ
  stepSize : ℚ
deriving DecidableEq

/-- A smoother whose ramp has finished: `current = target = p`. This is
the "post-smoothing-settled" state the end-to-end scenarios use. -/
def Smoother.settled (p : ℚ) : Smoother := ⟨p, p, 0, 0⟩

/-- Modelled from the spec: `setTarget(value)` over a ramp of `D` samples
restarts the ramp from the current effective value toward the new
target; with duration zero the target takes effect at once (no division
by zero). -/
def Smoother.setTarget (s : Smoother) (t : ℚ) (D : ℕ) : Smoother :=
  if D = 0 then ⟨t, t, 0, 0⟩ else ⟨s.current, t, D, (t - s.current) / D⟩

/-- Modelled from the spec: `next()` advances the state by exactly one
sample and returns the new effective value. -/
def Smoother.next (s : Smoother) : ℚ × Smoother :=
  match s.stepsLeft with
  | 0 => (s.current, s)
  | n + 1 =>
    let c := s.current + s.stepSize
    (c, ⟨c, s.target, n, s.stepSize⟩)

/-- The smoother state after `n` calls to `next()`. -/
def Smoother.stateAfter (s : Smoother) : ℕ → Smoother
  | 0 => s
  | n + 1 => Smoother.stateAfter (s.next).2 n

/-- The value returned by the `(n+1)`-th call to `next()` (0-indexed:
`valAt s 0` is the first returned value). -/
def Smoother.valAt (s : Smoother) (n : ℕ) : ℚ := ((s.stateAfter n).next).1

/-- The ramp of claim C5: current 0, target 1, duration `D` samples. -/
def rampFrom0To1 (D : ℕ) : Smoother := (Smoother.settled 0).setTarget 1 D

/-! ## Per-frame gain application (src/lib.rs lines 138-144)

```text
for (sample0, sample1) in channel_samples
    .iter_mut()
    .zip(channel_samples.iter_mut().skip(1))
{
    *sample0 = *sample0 * left_gain;
    *sample1 = *sample1 * right_gain;
}
```

The zip of the channel iterator with itself skipped by one visits the
overlapping pairs `(0,1), (1,2), ..., (n-2, n-1)` in order and mutates
through both sides: at each pair the left element (which, from the
second pair on, already holds the `* right_gain` of the previous
iteration) is multiplied by `left_gain`, and the right element by
`right_gain`. `applyGainsGo l r cur xs` is that loop with `cur` the
element currently sitting in the left slot of the next pair; the
recursion is structural so it matches the sequential mutation exactly. -/

def applyGainsGo (l r cur : ℚ) : List ℚ → List ℚ
  | [] => [cur]
  | x :: rest => cur * l :: applyGainsGo l r (x * r) rest

def applyGains (l r : ℚ) : List ℚ → List ℚ
  | [] => []
  | x :: rest => applyGainsGo l r x rest

/-! ## Process status and the process entry point (src/lib.rs lines 124-148) -/

/-- nih_plug's `ProcessStatus`; `process` in src/lib.rs line 147 returns
`ProcessStatus::Normal`. -/
inductive ProcessStatus
  | normal
  | tail (samples : ℕ)
  | keepAlive
  | error (msg : String)
deriving DecidableEq

/-- The frame loop of `process`: for every frame (`buffer.iter_samples()`)
read one value from the smoother via `next()` (line 131), compute the two
gains (lines 134-135) and apply them to the frame (lines 138-144),
threading the smoother state through. Returns the output frames and the
final smoother state. -/
def processFrames : Smoother → List (List ℚ) → List (List ℚ) × Smoother
  | s, [] => ([], s)
  | s, f :: fs =>
    let pn := s.next
    let rest := processFrames pn.2 fs
    (applyGains (left_gain pn.1) (right_gain pn.1) f :: rest.1, rest.2)

/-- `Plugin::process` (src/lib.rs lines 124-148): run the frame loop and
return `ProcessStatus::Normal`. -/
def process (s : Smoother) (buffer : List (List ℚ)) :
    (List (List ℚ) × Smoother) × ProcessStatus :=
  (processFrames s buffer, ProcessStatus.normal)

/-! ## Parameter model (src/lib.rs lines 11-20 and 30-46) -/

/-- The value range of a `FloatParam`; the source only uses
`FloatRange::Linear { min: -1.0, max: 1.0 }`. -/
inductive FloatRange
  | linear (min max : ℚ)
deriving DecidableEq

/-- Tag for nih_plug string-to-value formatter functions; the source
installs `formatters::s2v_f32_panning()` (line 43). -/
inductive S2VFormatter
  | s2v_f32_panning
deriving DecidableEq

/-- Tag for nih_plug value-to-string formatter functions
(`formatters::v2s_f32_panning` would be the panning one); the source
installs none. -/
inductive V2SFormatter
  | v2s_f32_panning
deriving DecidableEq

structure FloatParam where
  name : String
  defaultValue : ℚ
  range : FloatRange
  value_to_string : Option V2SFormatter
  string_to_value : Option S2VFormatter
deriving DecidableEq

/-- `FloatParam::new(name, default, range)`: no formatter of either
direction is installed by the constructor. -/
def FloatParam.new (name : String) (default : ℚ) (range : FloatRange) :
    FloatParam :=
  ⟨name, default, range, none, none⟩

/-- `.with_string_to_value(f)` builder (src/lib.rs line 43). -/
def FloatParam.with_string_to_value (p : FloatParam) (f : S2VFormatter) :
    FloatParam :=
  ⟨p.name, p.defaultValue, p.range, p.value_to_string, some f⟩

/-- `PanParams`: the `pan` parameter and its `#[id = "pan"]` attribute
(src/lib.rs lines 11-20); the editor state is UI glue and carries no
numeric content. -/
structure PanParams where
  pan_id : String
  pan : FloatParam
deriving DecidableEq

/-- `PanParams::default()` (src/lib.rs lines 30-46):
`FloatParam::new("Pan", 0.0, FloatRange::Linear { min: -1.0, max: 1.0 })
.with_string_to_value(formatters::s2v_f32_panning())`. -/
def PanParams.default : PanParams :=
  ⟨"pan",
    (FloatParam.new "Pan" 0 (FloatRange.linear (-1) 1)).with_string_to_value
      S2VFormatter.s2v_f32_panning⟩

/-! ## Host-facing target setter

Modelled from the spec: range clamping and NaN/Infinity sanitization of
host-set parameter values happen inside nih_plug's `FloatParam`, whose
code is not under `src/`; only the range declaration (lines 38-41) is.
Per the spec (§4.1, §7): out-of-range inputs are clamped to
`[-1.0, 1.0]`, never an error; NaN and infinite inputs are rejected or
clamped to the nearest valid bound and never propagated into the audio
signal. `HostFloat` is an IEEE-style input: a finite value, an infinity
of either sign, or NaN; `setPanTarget prev x` yields the new (always
finite, in-range) target, `prev` being the previous valid target kept
when a NaN is rejected. -/

inductive HostFloat
  | finite (q : ℚ)
  | posInf
  | negInf
  | nan
deriving DecidableEq

def setPanTarget (prev : ℚ) : HostFloat → ℚ
  | .finite q => max (-1) (min 1 q)
  | .posInf => 1
  | .negInf => -1
  | .nan => prev

/-! ## Helper lemmas about the smoother -/

theorem Smoother.next_zero (c t sz : ℚ) :
    Smoother.next ⟨c, t, 0, sz⟩ = (c, ⟨c, t, 0, sz⟩) := rfl

theorem Smoother.next_pos (c t : ℚ) (n : ℕ) (sz : ℚ) :
    Smoother.next ⟨c, t, n + 1, sz⟩ = (c + sz, ⟨c + sz, t, n, sz⟩) := rfl

theorem Smoother.stateAfter_succ (s : Smoother) (n : ℕ) :
    s.stateAfter (n + 1) = (s.stateAfter n).next.2 := by
  induction n generalizing s with
  | zero => rfl
  | succ n ih =>
    show (s.next.2).stateAfter (n + 1) = _
    rw [ih]
    rfl

/-- On the 0→1 ramp of duration `D`, the state after `k ≤ D` calls to
`next()` is `k/D` of the way to the target with `D - k` steps left. -/
theorem ramp_stateAfter (D : ℕ) (hD : 0 < D) :
    ∀ k, k ≤ D →
      (rampFrom0To1 D).stateAfter k = ⟨(k : ℚ) / D, 1, D - k, 1 / D⟩ := by
  intro k
  induction k with
  | zero =>
    intro _
    show rampFrom0To1 D = _
    simp [rampFrom0To1, Smoother.setTarget, Smoother.settled, hD.ne']
  | succ k ih =>
    intro hk
    rw [Smoother.stateAfter_succ, ih (Nat.le_of_succ_le hk)]
    obtain ⟨m, hm⟩ : ∃ m, D - k = m + 1 := ⟨D - k - 1, by omega⟩
    rw [hm, Smoother.next_pos]
    have h2 : D - (k + 1) = m := by omega
    have h1 : (k : ℚ) / D + 1 / D = ((k + 1 : ℕ) : ℚ) / D := by
      push_cast
      rw [div_add_div_same]
    rw [h2, h1]

/-- On the 0→1 ramp of duration `D`, the `(k+1)`-th call to `next()`
(for `k < D`) returns `(k+1)/D`. -/
theorem ramp_valAt (D : ℕ) (hD : 0 < D) (k : ℕ) (hk : k < D) :
    (rampFrom0To1 D).valAt k = ((k + 1 : ℕ) : ℚ) / D := by
  unfold Smoother.valAt
  rw [ramp_stateAfter D hD k (le_of_lt hk)]
  obtain ⟨m, hm⟩ : ∃ m, D - k = m + 1 := ⟨D - k - 1, by omega⟩
  rw [hm, Smoother.next_pos]
  push_cast
  rw [div_add_div_same]

/-- After the ramp has finished the state stays at the target. -/
theorem ramp_stateAfter_ge (D : ℕ) (hD : 0 < D) (m : ℕ) :
    (rampFrom0To1 D).stateAfter (D + m) = ⟨1, 1, 0, 1 / D⟩ := by
  induction m with
  | zero =>
    rw [Nat.add_zero, ramp_stateAfter D hD D le_rfl]
    have h1 : ((D : ℕ) : ℚ) / D = 1 := div_self (by exact_mod_cast hD.ne')
    rw [Nat.sub_self, h1]
  | succ m ih =>
    rw [Nat.add_succ, Smoother.stateAfter_succ, ih, Smoother.next_zero]

/-- After the ramp has finished every further `next()` returns 1. -/
theorem ramp_valAt_ge (D : ℕ) (hD : 0 < D) (m : ℕ) :
    (rampFrom0To1 D).valAt (D + m) = 1 := by
  unfold Smoother.valAt
  rw [ramp_stateAfter_ge D hD m, Smoother.next_zero]

/-! ## Claims -/

/-- Claim C1: `process` handles frames in order, reading one smoother
value per frame via `next()`: the output of a nonempty buffer is the
head frame under the gains of the first `next()` value followed by the
processed tail under the advanced smoother; the final smoother state has
advanced exactly once per frame; a 2-channel frame `[a, b]` becomes
`[a * left_gain p, b * right_gain p]`; and the end-to-end scenario (a
2-channel buffer of 4 frames of all-1.0 samples with the pan settled at
p = 0) yields 0.5 on both channels of all 4 frames. -/
theorem c1_process_per_frame :
    (∀ (s : Smoother) (f : List ℚ) (fs : List (List ℚ)),
      (process s (f :: fs)).1.1
        = applyGains (left_gain s.next.1) (right_gain s.next.1) f
            :: (process s.next.2 fs).1.1)
    ∧ (∀ (s : Smoother) (frames : List (List ℚ)),
      (process s frames).1.2 = s.stateAfter frames.length)
    ∧ (∀ (p a b : ℚ),
      applyGains (left_gain p) (right_gain p) [a, b]
        = [a * left_gain p, b * right_gain p])
    ∧ (process (Smoother.settled 0) [[1, 1], [1, 1], [1, 1], [1, 1]]).1.1
        = [[1/2, 1/2], [1/2, 1/2], [1/2, 1/2], [1/2, 1/2]] := by
  refine ⟨fun s f fs => rfl, ?_, fun p a b => rfl, ?_⟩
  · intro s frames
    induction frames generalizing s with
    | nil => rfl
    | cons f fs ih => exact ih s.next.2
  · norm_num [process, processFrames, applyGains, applyGainsGo,
      Smoother.next, Smoother.settled, left_gain, right_gain]

/-- Claim C2: for every pan value p in [-1, 1], the linear-law gains
computed in `process` satisfy `left_gain p + right_gain p = 1`. -/
theorem c2_gains_sum_to_one (p : ℚ) (_h1 : -1 ≤ p) (_h2 : p ≤ 1) :
    left_gain p + right_gain p = 1 := by
  unfold left_gain right_gain
  ring

theorem c2_witness :
    (-1 ≤ (1/2 : ℚ) ∧ (1/2 : ℚ) ≤ 1) ∧
      left_gain (1/2) + right_gain (1/2) = 1 :=
  ⟨⟨by norm_num, by norm_num⟩,
    c2_gains_sum_to_one (1/2) (by norm_num) (by norm_num)⟩

/-- Claim C3: the implemented linear gain law maps p = -1 to
(leftGain, rightGain) = (1, 0), p = 1 to (0, 1) and p = 0 to (1/2, 1/2). -/
theorem c3_distinguished_pan_values :
    left_gain (-1) = 1 ∧ right_gain (-1) = 0 ∧
      left_gain 1 = 0 ∧ right_gain 1 = 1 ∧
      left_gain 0 = 1/2 ∧ right_gain 0 = 1/2 := by
  norm_num [left_gain, right_gain]

/-- Claim C4: for every pan value p in [-1, 1] the gain pair is defined
(total on ℚ) and both gains lie in [0, 1], hence are finite and
non-negative. -/
theorem c4_gains_in_unit_interval (p : ℚ) (h1 : -1 ≤ p) (h2 : p ≤ 1) :
    0 ≤ left_gain p ∧ left_gain p ≤ 1 ∧
      0 ≤ right_gain p ∧ right_gain p ≤ 1 := by
  unfold left_gain right_gain
  refine ⟨?_, ?_, ?_, ?_⟩ <;> linarith

theorem c4_witness :
    (-1 ≤ (1/2 : ℚ) ∧ (1/2 : ℚ) ≤ 1) ∧
      (0 ≤ left_gain (1/2) ∧ left_gain (1/2) ≤ 1 ∧
        0 ≤ right_gain (1/2) ∧ right_gain (1/2) ≤ 1) :=
  ⟨⟨by norm_num, by norm_num⟩,
    c4_gains_in_unit_interval (1/2) (by norm_num) (by norm_num)⟩

/-- Claim C5: on the ramp from current = 0 to target = 1 over D samples,
the successive `next()` values are non-decreasing, the D-th value is
exactly 1, no value ever exceeds 1, and from the D-th call on the value
stays at 1 until a new target is set. -/
theorem c5_smoother_monotone_convergence (D : ℕ) (hD : 0 < D) :
    (∀ k, (rampFrom0To1 D).valAt k ≤ (rampFrom0To1 D).valAt (k + 1))
    ∧ (rampFrom0To1 D).valAt (D - 1) = 1
    ∧ (∀ k, (rampFrom0To1 D).valAt k ≤ 1)
    ∧ (∀ m, (rampFrom0To1 D).valAt (D - 1 + m) = 1) := by
  have hD' : (0 : ℚ) < D := by exact_mod_cast hD
  have hle : ∀ k, (rampFrom0To1 D).valAt k ≤ 1 := by
    intro k
    rcases lt_or_ge k D with h | h
    · rw [ramp_valAt D hD k h, div_le_one hD']
      exact_mod_cast Nat.succ_le_of_lt h
    · obtain ⟨m, hm⟩ : ∃ m, k = D + m := ⟨k - D, by omega⟩
      rw [hm, ramp_valAt_ge D hD m]
  have hend : (rampFrom0To1 D).valAt (D - 1) = 1 := by
    rw [ramp_valAt D hD (D - 1) (by omega), Nat.sub_add_cancel hD]
    exact div_self hD'.ne'
  refine ⟨?_, hend, hle, ?_⟩
  · intro k
    rcases lt_or_ge (k + 1) D with h | h
    · rw [ramp_valAt D hD k (by omega), ramp_valAt D hD (k + 1) h,
        div_le_div_iff_of_pos_right hD']
      exact_mod_cast Nat.le_succ (k + 1)
    · obtain ⟨m, hm⟩ : ∃ m, k + 1 = D + m := ⟨k + 1 - D, by omega⟩
      rw [hm, ramp_valAt_ge D hD m]
      exact hle k
  · intro m
    cases m with
    | zero => exact hend
    | succ m =>
      have hm : D - 1 + (m + 1) = D + m := by omega
      rw [hm, ramp_valAt_ge D hD m]

theorem c5_witness :
    0 < 4 ∧
      ((∀ k, (rampFrom0To1 4).valAt k ≤ (rampFrom0To1 4).valAt (k + 1))
        ∧ (rampFrom0To1 4).valAt (4 - 1) = 1
        ∧ (∀ k, (rampFrom0To1 4).valAt k ≤ 1)
        ∧ (∀ m, (rampFrom0To1 4).valAt (4 - 1 + m) = 1)) :=
  ⟨by decide, c5_smoother_monotone_convergence 4 (by decide)⟩

/-- Claim C6 counterexample: in a 3-channel frame of all-1.0 samples
with the pan settled at p = 0, the channel-2 sample comes out as 1/2,
not 1: the windowed pairing does NOT leave channels with index ≥ 2
unchanged. -/
theorem c6_counterexample :
    (((process (Smoother.settled 0) [[(1 : ℚ), 1, 1]]).1.1.getD 0
        []).getD 2 0) ≠ 1 := by
  norm_num [process, processFrames, applyGains, applyGainsGo,
    Smoother.next, Smoother.settled, left_gain, right_gain]

/-- Claim C6 amended: for frames with more than 2 channels the sliding
window `(0,1), (1,2), ...` modifies the higher channels as well: channel
0 is multiplied by `left_gain`, each interior channel by `right_gain`
then `left_gain`, and the last channel by `right_gain`; shown here in
closed form for 3- and 4-channel frames. -/
theorem c6_amended_windowed_pairing :
    (∀ (p a b c : ℚ),
      (process (Smoother.settled p) [[a, b, c]]).1.1
        = [[a * left_gain p, b * right_gain p * left_gain p,
            c * right_gain p]])
    ∧ (∀ (p a b c d : ℚ),
      (process (Smoother.settled p) [[a, b, c, d]]).1.1
        = [[a * left_gain p, b * right_gain p * left_gain p,
            c * right_gain p * left_gain p, d * right_gain p]]) :=
  ⟨fun _ _ _ _ => rfl, fun _ _ _ _ _ => rfl⟩

/-- Claim C7: a mono (1-channel) buffer passes through `process`
unchanged: the windowed pairing of a single-channel frame is empty, so
no gain is applied to any sample. -/
theorem c7_mono_passthrough :
    (∀ (l r x : ℚ), applyGains l r [x] = [x])
    ∧ (∀ (s : Smoother) (vals : List ℚ),
      (process s (vals.map fun v => [v])).1.1
        = vals.map fun v => [v]) := by
  refine ⟨fun l r x => rfl, ?_⟩
  intro s vals
  induction vals generalizing s with
  | nil => rfl
  | cons v vs ih =>
    show applyGains (left_gain s.next.1) (right_gain s.next.1) [v]
        :: (process s.next.2 (vs.map fun v => [v])).1.1
      = [v] :: vs.map fun v => [v]
    rw [ih s.next.2]
    rfl

/-- Claim C8: every host-set target value is sanitized: the stored
target always lies in [-1, 1] (hence is finite and never NaN), a finite
out-of-range value is clamped to the nearest bound, and an in-range
value is stored as is. -/
theorem c8_target_sanitized (prev : ℚ) (hp1 : -1 ≤ prev) (hp2 : prev ≤ 1) :
    (∀ x, -1 ≤ setPanTarget prev x ∧ setPanTarget prev x ≤ 1)
    ∧ (∀ q, 1 ≤ q → setPanTarget prev (HostFloat.finite q) = 1)
    ∧ (∀ q, q ≤ -1 → setPanTarget prev (HostFloat.finite q) = -1)
    ∧ (∀ q, -1 ≤ q → q ≤ 1 → setPanTarget prev (HostFloat.finite q) = q) := by
  refine ⟨?_, ?_, ?_, ?_⟩
  · intro x
    cases x with
    | finite q =>
      exact ⟨le_max_left _ _,
        max_le (by norm_num) (min_le_left _ _)⟩
    | posInf => exact ⟨by norm_num [setPanTarget], by norm_num [setPanTarget]⟩
    | negInf => exact ⟨by norm_num [setPanTarget], by norm_num [setPanTarget]⟩
    | nan => exact ⟨hp1, hp2⟩
  · intro q hq
    show max (-1) (min 1 q) = 1
    rw [min_eq_left hq]
    exact max_eq_right (by norm_num)
  · intro q hq
    show max (-1) (min 1 q) = -1
    rw [min_eq_right (le_trans hq (by norm_num))]
    exact max_eq_left hq
  · intro q hq1 hq2
    show max (-1) (min 1 q) = q
    rw [min_eq_right hq2]
    exact max_eq_right hq1

theorem c8_witness :
    ((-1 ≤ (0 : ℚ)) ∧ ((0 : ℚ) ≤ 1)) ∧
      (-1 ≤ setPanTarget 0 (HostFloat.finite 5)
        ∧ setPanTarget 0 (HostFloat.finite 5) ≤ 1) ∧
      (1 ≤ (5 : ℚ)) ∧ setPanTarget 0 (HostFloat.finite 5) = 1 :=
  ⟨⟨by norm_num, by norm_num⟩,
    (c8_target_sanitized 0 (by norm_num) (by norm_num)).1 (HostFloat.finite 5),
    by norm_num,
    (c8_target_sanitized 0 (by norm_num) (by norm_num)).2.1 5 (by norm_num)⟩

/-- Claim C9 counterexample: the pan parameter as built in
`PanParams::default()` does NOT carry both directions of the panning
text conversion: its value-to-string slot is `none` (only
`s2v_f32_panning`, the string-to-value parser, is installed), so the
conjunction claimed (id "pan", default 0, linear range [-1, 1], and both
formatter and parser present) is false. -/
theorem c9_counterexample :
    ¬ (PanParams.default.pan_id = "pan"
        ∧ PanParams.default.pan.defaultValue = 0
        ∧ PanParams.default.pan.range = FloatRange.linear (-1) 1
        ∧ (PanParams.default.pan.value_to_string).isSome = true
        ∧ (PanParams.default.pan.string_to_value).isSome = true) := by
  intro h
  have hv : (PanParams.default.pan.value_to_string).isSome = true := h.2.2.2.1
  simp [PanParams.default, FloatParam.new, FloatParam.with_string_to_value]
    at hv

/-- Claim C9 amended: the pan parameter exposes the id "pan", the
display name "Pan", default value 0, the linear range [-1, 1], and a
string-to-value panning parser (`s2v_f32_panning`); no value-to-string
panning formatter is installed (the slot is `none`, so the default
numeric display is used). -/
theorem c9_amended_param_contract :
    PanParams.default.pan_id = "pan"
    ∧ PanParams.default.pan.name = "Pan"
    ∧ PanParams.default.pan.defaultValue = 0
    ∧ PanParams.default.pan.range = FloatRange.linear (-1) 1
    ∧ PanParams.default.pan.string_to_value
        = some S2VFormatter.s2v_f32_panning
    ∧ PanParams.default.pan.value_to_string = none :=
  ⟨rfl, rfl, rfl, rfl, rfl, rfl⟩

/-- Claim C10: `process` always completes with `ProcessStatus::Normal`
(never a failure status), and it is a deterministic pure transformation:
identical smoother state and input buffer give identical results. -/
theorem c10_process_total_deterministic :
    (∀ (s : Smoother) (b : List (List ℚ)),
      (process s b).2 = ProcessStatus.normal)
    ∧ (∀ (s1 s2 : Smoother) (b1 b2 : List (List ℚ)),
      s1 = s2 → b1 = b2 → process s1 b1 = process s2 b2) :=
  ⟨fun _ _ => rfl, fun s1 s2 b1 b2 h1 h2 => by rw [h1, h2]⟩

theorem c10_witness :
    (process (Smoother.settled 0) [[1, 1]]).2 = ProcessStatus.normal
    ∧ process (Smoother.settled 0) [[1, 1]]
        = process (Smoother.settled 0) [[1, 1]] :=
  ⟨c10_process_total_deterministic.1 (Smoother.settled 0) [[1, 1]],
    c10_process_total_deterministic.2 (Smoother.settled 0)
      (Smoother.settled 0) [[1, 1]] [[1, 1]] rfl rfl⟩

end MinimalVstPan
